import Mathlib

/-!
Verification of the Rover domain-dependent planner (C sources: auxiliary.h,
planner.c, heuristic.h, minheap.h, solution.h) against its specification.

The C data structures and functions are shallowly embedded: C arrays become
Lean lists indexed with a zero default (matching the parser-initialised
arrays), C int flags become Bool, C int bitmaps become Nat with testBit for
`x & (1 << i)`, and C int arithmetic becomes Int (all values stay far from
the 32-bit boundaries). Global problem data (goal tables and object counts)
is bundled in an explicit Env record.
-/

namespace RoverPlanner

/-- INT_MAX sentinel from heuristic.h (`#define INT_MAX 100000`). -/
def INT_MAX : Int := 100000

/-- Rover struct from auxiliary.h. `can_traverse` is the immutable adjacency
matrix, `have_image[objective][mode]` the mutable image matrix. -/
structure Rover where
  position : Nat
  energy : Int
  available : Bool
  has_soil_analysis : Nat
  has_rock_analysis : Nat
  equipped_soil : Bool
  equipped_rock : Bool
  equipped_imaging : Bool
  can_traverse : Nat → Nat → Bool
  have_image : List (List Bool)

instance : Inhabited Rover :=
  ⟨{ position := 0, energy := 0, available := false, has_soil_analysis := 0,
     has_rock_analysis := 0, equipped_soil := false, equipped_rock := false,
     equipped_imaging := false, can_traverse := fun _ _ => false, have_image := [] }⟩

/-- Waypoint struct from auxiliary.h. -/
structure Waypoint where
  has_soil_sample : Bool
  has_rock_sample : Bool
  communicated_soil : Bool
  communicated_rock : Bool
  in_sun : Bool
  visible_waypoints : Nat
deriving DecidableEq

instance : Inhabited Waypoint :=
  ⟨{ has_soil_sample := false, has_rock_sample := false, communicated_soil := false,
     communicated_rock := false, in_sun := false, visible_waypoints := 0 }⟩

/-- Camera struct from auxiliary.h. -/
structure Camera where
  calibrated : Bool
  rover_id : Nat
  calibration_targets : Nat
  modes_supported : Nat
deriving DecidableEq

instance : Inhabited Camera :=
  ⟨{ calibrated := false, rover_id := 0, calibration_targets := 0, modes_supported := 0 }⟩

/-- Store struct from auxiliary.h. -/
structure Store where
  is_full : Bool
  rover_id : Nat
deriving DecidableEq

instance : Inhabited Store := ⟨{ is_full := false, rover_id := 0 }⟩

/-- Objective struct from auxiliary.h. -/
structure Objective where
  communicated_image : Nat
  visible_waypoints : Nat
deriving DecidableEq

instance : Inhabited Objective := ⟨{ communicated_image := 0, visible_waypoints := 0 }⟩

/-- Lander struct from auxiliary.h. -/
structure Lander where
  lander_position : Nat
  channel_free : Bool
deriving DecidableEq

/-- State struct from auxiliary.h: the entire world state. -/
structure State where
  rovers : List Rover
  waypoints : List Waypoint
  cameras : List Camera
  stores : List Store
  objectives : List Objective
  lander : Lander
  recharges : Int

/-- Goal struct from auxiliary.h (boolean goal tables). -/
structure Goal where
  communicated_soil_data : Nat → Bool
  communicated_rock_data : Nat → Bool
  communicated_image_data : Nat → Nat → Bool

/-- The global problem data of auxiliary.h: the parsed goal and the object
counts num_rovers, num_waypoints, num_cameras, num_stores, num_objectives,
num_modes. -/
structure Env where
  goal : Goal
  num_rovers : Nat
  num_waypoints : Nat
  num_cameras : Nat
  num_stores : Nat
  num_objectives : Nat
  num_modes : Nat

/-- Array read `state->rovers[r]` (arrays are parser-zeroed past the live range). -/
def rov (s : State) (r : Nat) : Rover := s.rovers.getD r default

/-- Array read `state->waypoints[w]`. -/
def wpt (s : State) (w : Nat) : Waypoint := s.waypoints.getD w default

/-- Array read `state->cameras[c]`. -/
def cam (s : State) (c : Nat) : Camera := s.cameras.getD c default

/-- Array read `state->stores[st]`. -/
def sto (s : State) (st : Nat) : Store := s.stores.getD st default

/-- Array read `state->objectives[o]`. -/
def obj (s : State) (o : Nat) : Objective := s.objectives.getD o default

/-- Matrix read `rover.have_image[o][m]`. -/
def roverHasImage (rv : Rover) (o m : Nat) : Bool := (rv.have_image.getD o []).getD m false

/-- apply_action from auxiliary.h. The C function receives a pointer `next`
to the caller's output buffer (whose pre-call contents are `next0`), first
copies `current` into it (`memcpy(next, current, sizeof(State))`), sets
`*energy_spent = 0`, then checks the preconditions of the selected action
one by one (`if (!P) return 0;`), and only after the last check writes the
effects into the buffer. Every `return 0` yields the same observable
result — the buffer holds the copy of `current` and `*energy_spent` is 0 —
so the chain of early returns is modelled as a single conditional whose
guard is the conjunction of the preconditions, listed in the order the C
code tests them. The result triple models (return value, final contents of
the `next` buffer, final `*energy_spent`). -/
def apply_action (env : Env) (current : State) (action_type : Nat)
    (params : List Nat) (next0 : State) : Int × State × Int :=
  -- memcpy(next, current, sizeof(State)); the pre-call contents next0 are overwritten
  let next := current
  match action_type with
  | 0 => -- navigate
    let rover := params.getD 0 0
    let from_wp := params.getD 1 0
    let to_wp := params.getD 2 0
    if (rov current rover).available ∧
        ¬((rov current rover).energy < 8) ∧
        (wpt current from_wp).visible_waypoints.testBit to_wp ∧
        (rov current rover).can_traverse from_wp to_wp ∧
        (rov current rover).position = from_wp ∧
        ¬(from_wp = to_wp) then
      let rv := rov current rover
      (1, { next with rovers := next.rovers.set rover { rv with position := to_wp, energy := rv.energy - 8 } }, 8)
    else (0, next, 0)
  | 1 => -- recharge
    let rover := params.getD 0 0
    let waypoint := params.getD 1 0
    if (wpt current waypoint).in_sun ∧
        (rov current rover).position = waypoint ∧
        ¬((rov current rover).energy ≥ 8) then
      let rv := rov current rover
      let next2 : State :=
        { next with
          rovers := next.rovers.set rover { rv with energy := rv.energy + 20 },
          recharges := next.recharges + 1 }
      (1, next2, 0)
    else (0, next, 0)
  | 2 => -- sample_soil
    let rover := params.getD 0 0
    let store := params.getD 1 0
    let waypoint := params.getD 2 0
    if (rov current rover).position = waypoint ∧
        ¬((rov current rover).energy < 3) ∧
        (wpt current waypoint).has_soil_sample ∧
        (rov current rover).equipped_soil ∧
        (sto current store).rover_id = rover ∧
        ¬(sto current store).is_full ∧
        env.goal.communicated_soil_data waypoint ∧
        ¬(wpt current waypoint).communicated_soil then
      let rv := rov current rover
      let st := sto current store
      let w := wpt current waypoint
      let next2 : State :=
        { next with
          stores := next.stores.set store { st with is_full := true },
          rovers := next.rovers.set rover { rv with energy := rv.energy - 3, has_soil_analysis := rv.has_soil_analysis ||| (1 <<< waypoint) },
          waypoints := next.waypoints.set waypoint { w with has_soil_sample := false } }
      (1, next2, 3)
    else (0, next, 0)
  | 3 => -- sample_rock
    let rover := params.getD 0 0
    let store := params.getD 1 0
    let waypoint := params.getD 2 0
    if (rov current rover).position = waypoint ∧
        ¬((rov current rover).energy < 5) ∧
        (wpt current waypoint).has_rock_sample ∧
        (rov current rover).equipped_rock ∧
        (sto current store).rover_id = rover ∧
        ¬(sto current store).is_full ∧
        env.goal.communicated_rock_data waypoint ∧
        ¬(wpt current waypoint).communicated_rock then
      let rv := rov current rover
      let st := sto current store
      let w := wpt current waypoint
      let next2 : State :=
        { next with
          stores := next.stores.set store { st with is_full := true },
          rovers := next.rovers.set rover { rv with energy := rv.energy - 5, has_rock_analysis := rv.has_rock_analysis ||| (1 <<< waypoint) },
          waypoints := next.waypoints.set waypoint { w with has_rock_sample := false } }
      (1, next2, 5)
    else (0, next, 0)
  | 4 => -- drop
    let rover := params.getD 0 0
    let store := params.getD 1 0
    if (sto current store).rover_id = rover ∧
        (sto current store).is_full then
      let st := sto current store
      (1, { next with stores := next.stores.set store { st with is_full := false } }, 0)
    else (0, next, 0)
  | 5 => -- calibrate
    let rover := params.getD 0 0
    let camera := params.getD 1 0
    let objective := params.getD 2 0
    let waypoint := params.getD 3 0
    if (rov current rover).equipped_imaging ∧
        ¬((rov current rover).energy < 2) ∧
        (cam current camera).calibration_targets.testBit objective ∧
        (rov current rover).position = waypoint ∧
        (obj current objective).visible_waypoints.testBit waypoint ∧
        (cam current camera).rover_id = rover then
      let rv := rov current rover
      let cm := cam current camera
      let next2 : State :=
        { next with
          rovers := next.rovers.set rover { rv with energy := rv.energy - 2 },
          cameras := next.cameras.set camera { cm with calibrated := true } }
      (1, next2, 2)
    else (0, next, 0)
  | 6 => -- take_image
    let rover := params.getD 0 0
    let waypoint := params.getD 1 0
    let objective := params.getD 2 0
    let camera := params.getD 3 0
    let mode := params.getD 4 0
    if (cam current camera).calibrated ∧
        (cam current camera).rover_id = rover ∧
        (rov current rover).equipped_imaging ∧
        (cam current camera).modes_supported.testBit mode ∧
        (obj current objective).visible_waypoints.testBit waypoint ∧
        (rov current rover).position = waypoint ∧
        ¬((rov current rover).energy < 1) ∧
        env.goal.communicated_image_data objective mode ∧
        ¬(obj current objective).communicated_image.testBit mode then
      let rv := rov current rover
      let cm := cam current camera
      let next2 : State :=
        { next with
          rovers := next.rovers.set rover { rv with have_image := rv.have_image.set objective ((rv.have_image.getD objective []).set mode true), energy := rv.energy - 1 },
          cameras := next.cameras.set camera { cm with calibrated := false } }
      (1, next2, 1)
    else (0, next, 0)
  | 7 => -- communicate soil data
    let rover := params.getD 0 0
    let sample_waypoint := params.getD 1 0
    let rover_waypoint := params.getD 2 0
    let lander_waypoint := params.getD 3 0
    if (rov current rover).position = rover_waypoint ∧
        current.lander.lander_position = lander_waypoint ∧
        (rov current rover).has_soil_analysis.testBit sample_waypoint ∧
        (wpt current rover_waypoint).visible_waypoints.testBit lander_waypoint ∧
        (rov current rover).available ∧
        current.lander.channel_free ∧
        ¬((rov current rover).energy < 4) ∧
        env.goal.communicated_soil_data sample_waypoint ∧
        ¬(wpt current sample_waypoint).communicated_soil then
      let rv := rov current rover
      let w := wpt current sample_waypoint
      let next2 : State :=
        { next with
          waypoints := next.waypoints.set sample_waypoint { w with communicated_soil := true },
          rovers := next.rovers.set rover { rv with energy := rv.energy - 4 } }
      (1, next2, 4)
    else (0, next, 0)
  | 8 => -- communicate rock data
    let rover := params.getD 0 0
    let sample_waypoint := params.getD 1 0
    let rover_waypoint := params.getD 2 0
    let lander_waypoint := params.getD 3 0
    if (rov current rover).position = rover_waypoint ∧
        current.lander.lander_position = lander_waypoint ∧
        (rov current rover).has_rock_analysis.testBit sample_waypoint ∧
        (wpt current rover_waypoint).visible_waypoints.testBit lander_waypoint ∧
        (rov current rover).available ∧
        current.lander.channel_free ∧
        ¬((rov current rover).energy < 4) ∧
        env.goal.communicated_rock_data sample_waypoint ∧
        ¬(wpt current sample_waypoint).communicated_rock then
      let rv := rov current rover
      let w := wpt current sample_waypoint
      let next2 : State :=
        { next with
          waypoints := next.waypoints.set sample_waypoint { w with communicated_rock := true },
          rovers := next.rovers.set rover { rv with energy := rv.energy - 4 } }
      (1, next2, 4)
    else (0, next, 0)
  | _ => -- default: communicate image data
    let rover := params.getD 0 0
    let objective := params.getD 1 0
    let mode := params.getD 2 0
    let rover_waypoint := params.getD 3 0
    let lander_waypoint := params.getD 4 0
    if (rov current rover).position = rover_waypoint ∧
        current.lander.lander_position = lander_waypoint ∧
        roverHasImage (rov current rover) objective mode ∧
        (wpt current rover_waypoint).visible_waypoints.testBit lander_waypoint ∧
        (rov current rover).available ∧
        current.lander.channel_free ∧
        ¬((rov current rover).energy < 6) ∧
        env.goal.communicated_image_data objective mode ∧
        ¬(obj current objective).communicated_image.testBit mode then
      let rv := rov current rover
      let ob := obj current objective
      let next2 : State :=
        { next with
          objectives := next.objectives.set objective { ob with communicated_image := ob.communicated_image ||| (1 <<< mode) },
          rovers := next.rovers.set rover { rv with energy := rv.energy - 6 } }
      (1, next2, 6)
    else (0, next, 0)

/-- is_solution from auxiliary.h: every set bit of the goal tables is set in
the state's communicated fields. -/
def is_solution (env : Env) (nodeState : State) : Bool :=
  ((List.range env.num_waypoints).all fun wp =>
      !(env.goal.communicated_soil_data wp) || (wpt nodeState wp).communicated_soil) &&
  ((List.range env.num_waypoints).all fun wp =>
      !(env.goal.communicated_rock_data wp) || (wpt nodeState wp).communicated_rock) &&
  ((List.range env.num_objectives).all fun o =>
    (List.range env.num_modes).all fun m =>
      !(env.goal.communicated_image_data o m) ||
        (obj nodeState o).communicated_image.testBit m)

/-- Edge of the per-rover travel graph used by precompute_shortest_paths
(heuristic.h line 59): `rover.can_traverse[i][j] && (waypoints[i].visible_waypoints & (1 << j))`. -/
def fw_edge (s : State) (r i j : Nat) : Bool :=
  (rov s r).can_traverse i j && (wpt s i).visible_waypoints.testBit j

/-- Initialisation of the Floyd-Warshall matrix for one rover
(heuristic.h lines 56-61): 0 on the diagonal, 8 on edges, INT_MAX otherwise. -/
def fw_init (s : State) (r : Nat) : Nat → Nat → Int := fun i j =>
  if i = j then 0 else if fw_edge s r i j then 8 else INT_MAX

/-- Pointwise update of the distance matrix (the in-place C array write
`dist[rover][i][j] = through_k`). -/
def fw_set (d : Nat → Nat → Int) (i j : Nat) (v : Int) : Nat → Nat → Int :=
  fun a b => if a = i ∧ b = j then v else d a b

/-- Body of the innermost Floyd-Warshall loop (heuristic.h lines 66-68). -/
def fw_relax (k : Nat) (d : Nat → Nat → Int) (i j : Nat) : Nat → Nat → Int :=
  if d i k ≠ INT_MAX ∧ d k j ≠ INT_MAX ∧ d i k + d k j < d i j then
    fw_set d i j (d i k + d k j)
  else d

/-- The `j` loop of Floyd-Warshall for fixed `k`, `i`. -/
def fw_row (n k i : Nat) (d : Nat → Nat → Int) : Nat → Nat → Int :=
  (List.range n).foldl (fun d j => fw_relax k d i j) d

/-- The `i` loop of Floyd-Warshall for fixed `k`. -/
def fw_pass (n k : Nat) (d : Nat → Nat → Int) : Nat → Nat → Int :=
  (List.range n).foldl (fun d i => fw_row n k i d) d

/-- precompute_shortest_paths from heuristic.h, for one rover `r` over `n`
waypoints: initialise the matrix, then run the three nested Floyd-Warshall
loops (k outer, then i, then j), updating the matrix in place. -/
def rover_dist (s : State) (n r : Nat) : Nat → Nat → Int :=
  (List.range n).foldl (fun d k => fw_pass n k d) (fw_init s r)

/-- The whole `dist[rover][from][to]` table of heuristic.h, as computed by
precompute_shortest_paths on a state. -/
def precompute_shortest_paths (s : State) (n : Nat) : Nat → Nat → Nat → Int :=
  fun r => rover_dist s n r

/-- find_nearest_comm_point from heuristic.h. Returns the waypoint id, or -1
when no waypoint with line of sight to the lander improves on INT_MAX. -/
def find_nearest_comm_point (env : Env) (dist : Nat → Nat → Nat → Int)
    (s : State) (r from_wp : Nat) : Int :=
  let lander_pos := s.lander.lander_position
  if (wpt s from_wp).visible_waypoints.testBit lander_pos then (from_wp : Int)
  else
    let res := (List.range env.num_waypoints).foldl
      (fun (acc : Int × Int) wp =>
        if ¬(wpt s wp).visible_waypoints.testBit lander_pos then acc
        else if dist r from_wp wp < acc.1 then (dist r from_wp wp, (wp : Int))
        else acc)
      (INT_MAX, -1)
    res.2

/-- GoalCost struct from heuristic.h. -/
structure GoalCost where
  cost : Int
  rover_id : Int
deriving DecidableEq

/-- The per-rover relaxed cost of a soil goal at `wp` (heuristic.h lines
120-131); INT_MAX when rover `r` cannot achieve it in the relaxation. -/
def soil_cost (env : Env) (dist : Nat → Nat → Nat → Int) (s : State) (wp r : Nat) : Int :=
  if (rov s r).has_soil_analysis.testBit wp then
    let comm_point := find_nearest_comm_point env dist s r (rov s r).position
    if comm_point ≠ -1 then dist r (rov s r).position comm_point.toNat + 4 else INT_MAX
  else if (rov s r).equipped_soil && (wpt s wp).has_soil_sample then
    let travel_to_sample := dist r (rov s r).position wp
    if travel_to_sample ≠ INT_MAX then
      let comm_point := find_nearest_comm_point env dist s r wp
      if comm_point ≠ -1 then travel_to_sample + 3 + dist r wp comm_point.toNat + 4
      else INT_MAX
    else INT_MAX
  else INT_MAX

/-- The per-rover relaxed cost of a rock goal at `wp` (heuristic.h lines
144-160), symmetric to the soil case with sampling cost 5. -/
def rock_cost (env : Env) (dist : Nat → Nat → Nat → Int) (s : State) (wp r : Nat) : Int :=
  if (rov s r).has_rock_analysis.testBit wp then
    let comm_point := find_nearest_comm_point env dist s r (rov s r).position
    if comm_point ≠ -1 then dist r (rov s r).position comm_point.toNat + 4 else INT_MAX
  else if (rov s r).equipped_rock && (wpt s wp).has_rock_sample then
    let travel_to_sample := dist r (rov s r).position wp
    if travel_to_sample ≠ INT_MAX then
      let comm_point := find_nearest_comm_point env dist s r wp
      if comm_point ≠ -1 then travel_to_sample + 5 + dist r wp comm_point.toNat + 4
      else INT_MAX
    else INT_MAX
  else INT_MAX

/-- The per-rover relaxed cost of an image goal (obj, mode) (heuristic.h
lines 169-192), including calibrate + take_image + travel + communicate. -/
def image_cost (env : Env) (dist : Nat → Nat → Nat → Int) (s : State)
    (o mode r : Nat) : Int :=
  if roverHasImage (rov s r) o mode then
    let comm_point := find_nearest_comm_point env dist s r (rov s r).position
    if comm_point ≠ -1 then dist r (rov s r).position comm_point.toNat + 6 else INT_MAX
  else if (rov s r).equipped_imaging then
    let has_camera := (List.range env.num_cameras).any fun c =>
      (cam s c).rover_id == r && (cam s c).modes_supported.testBit mode
    if ¬has_camera then INT_MAX
    else
      let best_shoot_cost := (List.range env.num_waypoints).foldl
        (fun best shoot_wp =>
          if ¬(obj s o).visible_waypoints.testBit shoot_wp then best
          else
            let travel_cost := dist r (rov s r).position shoot_wp
            if travel_cost = INT_MAX then best
            else
              let comm_point := find_nearest_comm_point env dist s r shoot_wp
              if comm_point ≠ -1 then
                let total := travel_cost + 2 + 1 + dist r shoot_wp comm_point.toNat + 6
                if total < best then total else best
              else best)
        INT_MAX
      if best_shoot_cost < INT_MAX then best_shoot_cost else INT_MAX
  else INT_MAX

/-- calculate_all_goal_costs from heuristic.h: for every unfulfilled goal
(soil goals in waypoint order, then rock goals, then image goals in
objective-major, mode-minor order) and every rover in index order, push the
relaxed cost when it is finite. -/
def calculate_all_goal_costs (env : Env) (dist : Nat → Nat → Nat → Int)
    (s : State) : List GoalCost :=
  ((List.range env.num_waypoints).flatMap fun wp =>
    if ¬env.goal.communicated_soil_data wp || (wpt s wp).communicated_soil then []
    else (List.range env.num_rovers).filterMap fun r =>
      let c := soil_cost env dist s wp r
      if c ≠ INT_MAX then some ⟨c, (r : Int)⟩ else none) ++
  ((List.range env.num_waypoints).flatMap fun wp =>
    if ¬env.goal.communicated_rock_data wp || (wpt s wp).communicated_rock then []
    else (List.range env.num_rovers).filterMap fun r =>
      let c := rock_cost env dist s wp r
      if c ≠ INT_MAX then some ⟨c, (r : Int)⟩ else none) ++
  ((List.range env.num_objectives).flatMap fun o =>
    (List.range env.num_modes).flatMap fun mode =>
      if ¬env.goal.communicated_image_data o mode ||
          (obj s o).communicated_image.testBit mode then []
      else (List.range env.num_rovers).filterMap fun r =>
        let c := image_cost env dist s o mode r
        if c ≠ INT_MAX then some ⟨c, (r : Int)⟩ else none)

/-- One insertion step of a stable descending sort on cost. -/
def gc_insert (x : GoalCost) : List GoalCost → List GoalCost
  | [] => [x]
  | y :: ys => if y.cost ≥ x.cost then y :: gc_insert x ys else x :: y :: ys

/-- The `qsort(all_costs, ..., compareGoalCosts)` call of heuristic.h:
sort the goal-cost candidates in descending order of cost (compareGoalCosts
returns costB - costA; qsort leaves the order of equal keys unspecified, and
this model resolves those ties stably). -/
def sort_goal_costs (l : List GoalCost) : List GoalCost := l.foldr gc_insert []

/-- The greedy assignment loop of heuristic (heuristic.h lines 296-303):
walk the sorted candidates, assign each to its rover when that rover is
still unused, accumulating h_tasks and the per-rover assigned cost table. -/
def greedy_assign (sorted : List GoalCost) : Int × (Int → Int) :=
  let res := sorted.foldl
    (fun (acc : Int × (Int → Int) × (Int → Bool)) gc =>
      if gc.rover_id ≠ -1 ∧ ¬acc.2.2 gc.rover_id then
        (acc.1 + gc.cost,
         fun r => if r = gc.rover_id then gc.cost else acc.2.1 r,
         fun r => if r = gc.rover_id then true else acc.2.2 r)
      else acc)
    (0, fun _ => 0, fun _ => false)
  (res.1, res.2.1)

/-- calculate_energy_cost_for_assignment from heuristic.h, with the early
`return INT_MAX` modelled by the recursion aborting. -/
def energy_cost_go (env : Env) (dist : Nat → Nat → Nat → Int) (s : State)
    (assigned_costs : Int → Int) : List Nat → Int → Int
  | [], acc => acc
  | r :: rest, acc =>
    if assigned_costs (r : Int) = 0 then energy_cost_go env dist s assigned_costs rest acc
    else
      let work_cost := assigned_costs (r : Int)
      let available_energy := (rov s r).energy
      if work_cost > available_energy then
        let min_recharge_dist := (List.range env.num_waypoints).foldl
          (fun m wp => if (wpt s wp).in_sun then
              (if dist r (rov s r).position wp < m then dist r (rov s r).position wp else m)
            else m)
          INT_MAX
        if min_recharge_dist ≠ INT_MAX then
          energy_cost_go env dist s assigned_costs rest (acc + min_recharge_dist)
        else INT_MAX
      else energy_cost_go env dist s assigned_costs rest acc

/-- calculate_energy_cost_for_assignment from heuristic.h. -/
def calculate_energy_cost_for_assignment (env : Env) (dist : Nat → Nat → Nat → Int)
    (s : State) (assigned_costs : Int → Int) : Int :=
  energy_cost_go env dist s assigned_costs (List.range env.num_rovers) 0

/-- heuristic from heuristic.h (H4, optimal assignment): 0 on goal states,
otherwise the greedy one-task-per-rover sum of relaxed goal costs plus the
recharge-travel lower bound, clamped to [0, INT_MAX]. The `dist` argument is
the global table filled by precompute_shortest_paths. -/
def heuristic (env : Env) (dist : Nat → Nat → Nat → Int) (nodeState : State) : Int :=
  if is_solution env nodeState then 0
  else
    let all_costs := calculate_all_goal_costs env dist nodeState
    if all_costs.length = 0 then 0
    else
      let sorted := sort_goal_costs all_costs
      let assigned := greedy_assign sorted
      let h_tasks := assigned.1
      let h_energy := calculate_energy_cost_for_assignment env dist nodeState assigned.2
      if h_energy = INT_MAX then INT_MAX
      else
        let final_h := h_tasks + h_energy
        if final_h < 0 then 0 else if final_h > INT_MAX then INT_MAX else final_h

/-- StateKey struct from planner.c: the compact fingerprint used as the
closed-set hash key. Fixed-size arrays keep their MAX_ROVERS = 10 length
(entries past num_rovers stay at the memset value 0). -/
structure StateKey where
  rover_positions : List Nat
  energy_levels : List Int
  has_soil_analysis : Nat
  has_rock_analysis : Nat
  have_image_bm : List Nat
  has_soil_sample : Nat
  has_rock_sample : Nat
  communicated_soil_sample : Nat
  communicated_rock_sample : Nat
  cameras_calibrated : Nat
  full_stores : Nat
  communicated_image : Nat
  recharges : Int
deriving DecidableEq

/-- The per-rover `have_image` bitmap of make_state_key:
bit `o * num_modes + m` is set when the rover has image (o, m). -/
def have_image_bm (env : Env) (s : State) (r : Nat) : Nat :=
  (List.range env.num_objectives).foldl
    (fun acc o =>
      (List.range env.num_modes).foldl
        (fun acc m => if roverHasImage (rov s r) o m then acc ||| (1 <<< (o * env.num_modes + m)) else acc)
        acc)
    0

/-- make_state_key from planner.c: memset the key to zero, then fill the
per-rover arrays and fold the per-object booleans into bitmaps. Note that a
rover's per-waypoint soil/rock analysis bitmap contributes only a single
bit (`if (s->rovers[r].has_soil_analysis) key->has_soil_analysis |= 1 << r`),
and an objective's per-mode communicated_image bitmap contributes only a
single bit per objective. -/
def make_state_key (env : Env) (s : State) : StateKey :=
  { rover_positions := (List.range 10).map fun r =>
      if r < env.num_rovers then (rov s r).position else 0
    energy_levels := (List.range 10).map fun r =>
      if r < env.num_rovers then (rov s r).energy else 0
    has_soil_analysis := (List.range env.num_rovers).foldl
      (fun acc r => if (rov s r).has_soil_analysis ≠ 0 then acc ||| (1 <<< r) else acc) 0
    has_rock_analysis := (List.range env.num_rovers).foldl
      (fun acc r => if (rov s r).has_rock_analysis ≠ 0 then acc ||| (1 <<< r) else acc) 0
    have_image_bm := (List.range 10).map fun r =>
      if r < env.num_rovers then have_image_bm env s r else 0
    has_soil_sample := (List.range env.num_waypoints).foldl
      (fun acc w => if (wpt s w).has_soil_sample then acc ||| (1 <<< w) else acc) 0
    has_rock_sample := (List.range env.num_waypoints).foldl
      (fun acc w => if (wpt s w).has_rock_sample then acc ||| (1 <<< w) else acc) 0
    communicated_soil_sample := (List.range env.num_waypoints).foldl
      (fun acc w => if (wpt s w).communicated_soil then acc ||| (1 <<< w) else acc) 0
    communicated_rock_sample := (List.range env.num_waypoints).foldl
      (fun acc w => if (wpt s w).communicated_rock then acc ||| (1 <<< w) else acc) 0
    cameras_calibrated := (List.range env.num_cameras).foldl
      (fun acc c => if (cam s c).calibrated then acc ||| (1 <<< c) else acc) 0
    full_stores := (List.range env.num_stores).foldl
      (fun acc st => if (sto s st).is_full then acc ||| (1 <<< st) else acc) 0
    communicated_image := (List.range env.num_objectives).foldl
      (fun acc o => if (obj s o).communicated_image ≠ 0 then acc ||| (1 <<< o) else acc) 0
    recharges := s.recharges }

/-- tree_node struct from auxiliary.h (parent pointers, which only matter
for plan extraction, are not part of this model). -/
structure TreeNode where
  currState : State
  depth : Nat
  h : Int
  g : Int
  f : Int
  action_type : Int

/-- The all-empty world state (used only as the Inhabited default). -/
def emptyState : State :=
  { rovers := [], waypoints := [], cameras := [], stores := [], objectives := [],
    lander := { lander_position := 0, channel_free := false }, recharges := 0 }

instance : Inhabited TreeNode :=
  ⟨{ currState := emptyState, depth := 0, h := 0, g := 0, f := 0, action_type := -1 }⟩

/-- Swap of two heap cells (swapNodes from minheap.h). -/
def heap_swap (l : List (Int × TreeNode)) (i j : Nat) : List (Int × TreeNode) :=
  (l.set i (l.getD j default)).set j (l.getD i default)

/-- The bubble-up while loop of insert_node (minheap.h lines 1430-1433). -/
def bubble_up : List (Int × TreeNode) → Nat → List (Int × TreeNode)
  | l, 0 => l
  | l, i + 1 =>
    let p := i / 2
    if (l.getD p default).1 > (l.getD (i + 1) default).1 then
      bubble_up (heap_swap l (i + 1) p) p
    else l
termination_by l i => i
decreasing_by simp_wf; omega

/-- insert_node from minheap.h: append at the end, then bubble up. -/
def insert_node (heap : List (Int × TreeNode)) (f : Int) (node : TreeNode) :
    List (Int × TreeNode) :=
  bubble_up (heap ++ [(f, node)]) heap.length

/-- Constant `best` from planner.c. -/
def best : Int := 1

/-- Constant `astar` from planner.c. -/
def astar : Int := 2

/-- The search-global data structures right after initialize_search returns:
the precomputed dist table, the frontier min-heap, the closed set hash table
(the global `state_set`, NULL at program start), and the root node. -/
structure SearchInit where
  dist : Nat → Nat → Nat → Int
  frontier : List (Int × TreeNode)
  state_set : List StateKey
  root : TreeNode

/-- initialize_search from planner.c: precompute shortest paths, create the
frontier, build the root node (state = initial, depth = 0, g = 0,
action_taken = -1), compute its h, set f = h for best and f = g + h for
astar, and push the root onto the frontier. The global closed set
`state_set` is not touched (it is still the empty table from program
start-up): only add_child inserts fingerprints, via check_with_parents. -/
def initialize_search (env : Env) (initState : State) (method : Int) : SearchInit :=
  let dist := precompute_shortest_paths initState env.num_waypoints
  let g : Int := 0
  let h := heuristic env dist initState
  let root : TreeNode :=
    { currState := initState, depth := 0, g := g, h := h,
      f := if method = best then h else g + h, action_type := -1 }
  { dist := dist, frontier := insert_node [] root.f root, state_set := [], root := root }

/-- The tail of main from planner.c (lines 1282-1306): after search returns,
clean up, then extract and write the solution only when a solution node was
found; in every case fall through to `return 0`. The result is (exit code,
whether write_solution_to_file was called). The earlier branches of main
(wrong arity, bad method, parse failure) return -1 before the search runs. -/
def planner_main (argc : Nat) (method : Int) (parse_ok : Bool)
    (solution_node : Option TreeNode) : Int × Bool :=
  if argc ≠ 4 then (-1, false)
  else if method < 0 then (-1, false)
  else if ¬parse_ok then (-1, false)
  else
    match solution_node with
    | some _ => (0, true)
    | none => (0, false)

/-! ### General helper lemmas -/

/-- Reading a list cell after a `set`: the written value inside the live
range, the old value elsewhere (C arrays are only written in range). -/
theorem getD_set {α : Type} (l : List α) (i j : Nat) (a d : α) :
    (l.set i a).getD j d = if i = j ∧ j < l.length then a else l.getD j d := by
  by_cases hij : i = j
  · subst hij
    by_cases hl : i < l.length
    · simp [List.getD_eq_getElem?_getD, List.getElem?_set_self', hl]
    · simp [List.getD_eq_getElem?_getD, hl,
        List.set_eq_of_length_le (by omega : l.length ≤ i)]
  · simp [List.getD_eq_getElem?_getD, hij, List.getElem?_set_ne hij]

/-- Two folds over the same list agree when the step functions agree on the
list's elements. -/
theorem foldl_ext {α β : Type} {f g : β → α → β} (l : List α) (b : β)
    (h : ∀ bb a, a ∈ l → f bb a = g bb a) : l.foldl f b = l.foldl g b := by
  induction l generalizing b with
  | nil => rfl
  | cons x xs ih =>
    simp only [List.foldl_cons]
    rw [h b x (by simp)]
    exact ih _ fun bb a ha => h bb a (by simp [ha])

/-! ### A small concrete problem used by several witnesses -/

/-- A concrete rover used by witness instances. -/
def wRover : Rover :=
  { position := 0, energy := 7, available := true, has_soil_analysis := 1,
    has_rock_analysis := 0, equipped_soil := true, equipped_rock := false,
    equipped_imaging := false, can_traverse := fun i j => i == 0 && j == 1,
    have_image := [] }

/-- A concrete two-waypoint state used by witness instances: waypoint 0 is
in the sun and sees waypoint 1, the rover stands at waypoint 0 with energy 7. -/
def wState : State :=
  { rovers := [wRover],
    waypoints :=
      [{ has_soil_sample := true, has_rock_sample := false, communicated_soil := false,
         communicated_rock := false, in_sun := true, visible_waypoints := 2 },
       { has_soil_sample := false, has_rock_sample := false, communicated_soil := false,
         communicated_rock := false, in_sun := false, visible_waypoints := 1 }],
    cameras := [], stores := [{ is_full := false, rover_id := 0 }], objectives := [],
    lander := { lander_position := 1, channel_free := true }, recharges := 0 }

/-- The problem data matching wState, with one soil goal at waypoint 0. -/
def wEnv : Env :=
  { goal := { communicated_soil_data := fun w => w == 0,
              communicated_rock_data := fun _ => false,
              communicated_image_data := fun _ _ => false },
    num_rovers := 1, num_waypoints := 2, num_cameras := 0, num_stores := 1,
    num_objectives := 0, num_modes := 3 }

/-- wState with a full battery (energy 20), used where an action needs
energy that wState lacks. -/
def wState2 : State :=
  { wState with rovers := [{ wRover with energy := 20 }] }

/-! ### C6: semantics of the recharge action -/

/-- C6: apply_action on the recharge kind (1) with parameters (r, w)
succeeds iff waypoint w is in the sun, rover r stands at w, and r's energy
is below 8; on success it adds exactly 20 to r's energy, adds exactly 1 to
the recharges counter, leaves everything else unchanged, and reports an
energy_spent of 0. -/
theorem recharge_spec (env : Env) (s : State) (r w : Nat) (next0 : State) :
    ((apply_action env s 1 [r, w] next0).1 = 1 ↔
      ((wpt s w).in_sun = true ∧ (rov s r).position = w ∧ (rov s r).energy < 8)) ∧
    ((apply_action env s 1 [r, w] next0).1 = 1 →
      apply_action env s 1 [r, w] next0 =
        (1,
         { s with
           rovers := s.rovers.set r { rov s r with energy := (rov s r).energy + 20 },
           recharges := s.recharges + 1 },
         0)) := by
  simp only [apply_action, List.getD]
  split_ifs with h1 h2 h3 <;> simp_all

/-- Witness for C6 at a concrete recharge application. -/
theorem recharge_spec_witness :
    (apply_action wEnv wState 1 [0, 0] wState).1 = 1 ∧
    apply_action wEnv wState 1 [0, 0] wState =
      (1,
       { wState with
         rovers := wState.rovers.set 0 { rov wState 0 with energy := (rov wState 0).energy + 20 },
         recharges := wState.recharges + 1 },
       0) := by
  have h := recharge_spec wEnv wState 0 0 wState
  have h1 : (apply_action wEnv wState 1 [0, 0] wState).1 = 1 :=
    h.1.mpr (by decide)
  exact ⟨h1, h.2 h1⟩

/-! ### C7: navigate effects and frame -/

/-- C7: a successful navigate application (kind 0, parameters (r, from, to))
produces exactly the input state with rover r's position set to `to` and its
energy lowered by 8, and reports energy_spent = 8; all other rovers, all
waypoints, cameras, stores, objectives, the lander and the recharges counter
are unchanged. -/
theorem navigate_frame (env : Env) (s : State) (r from_wp to_wp : Nat) (next0 : State)
    (h : (apply_action env s 0 [r, from_wp, to_wp] next0).1 = 1) :
    apply_action env s 0 [r, from_wp, to_wp] next0 =
      (1,
       { s with
         rovers := s.rovers.set r
           { rov s r with position := to_wp, energy := (rov s r).energy - 8 } },
       8) := by
  simp only [apply_action, List.getD] at h ⊢
  split_ifs at h ⊢ <;> simp_all

/-- Witness for C7 at a concrete navigate application. -/
theorem navigate_frame_witness :
    apply_action wEnv wState2 0 [0, 0, 1] wState2 =
      (1,
       { wState2 with
         rovers := wState2.rovers.set 0
           { rov wState2 0 with position := 1, energy := (rov wState2 0).energy - 8 } },
       8) :=
  navigate_frame wEnv wState2 0 0 1 wState2 (by decide)

/-! ### C2: what apply_action does to the output buffer on failure -/

/-- wState with its only rover made unavailable, so navigate fails on its
first precondition. -/
def ex2State : State :=
  { wState with rovers := [{ wRover with available := false }] }

/-- A pre-call content for the caller's output buffer that differs from the
current state (recharges 5 instead of 0). -/
def ex2Next0 : State :=
  { ex2State with recharges := 5 }

/-- Counterexample to C2: apply_action fails on a precondition miss (the
rover is unavailable), yet the caller's output buffer does not keep its
pre-call value — the memcpy at the top of apply_action has already replaced
it with a copy of the current state. -/
theorem apply_action_fail_clobbers_buffer :
    (apply_action wEnv ex2State 0 [0, 0, 1] ex2Next0).1 = 0 ∧
    (apply_action wEnv ex2State 0 [0, 0, 1] ex2Next0).2.1.recharges ≠ ex2Next0.recharges := by
  constructor
  · decide
  · decide

/-- C2 (amended): when apply_action returns not-applicable (0), the caller's
output buffer holds a copy of the current (input) state: the memcpy happens
before the precondition checks and no effect is applied on a failing path. -/
theorem apply_action_fail_eq_current (env : Env) (current : State) (action_type : Nat)
    (params : List Nat) (next0 : State)
    (h : (apply_action env current action_type params next0).1 = 0) :
    (apply_action env current action_type params next0).2.1 = current := by
  rcases action_type with _ | _ | _ | _ | _ | _ | _ | _ | _ | n <;>
    · simp only [apply_action] at h ⊢
      split_ifs at h ⊢ <;> first | rfl | exact absurd h one_ne_zero

/-- Witness for the amended C2 at a concrete failing application. -/
theorem apply_action_fail_eq_current_witness :
    (apply_action wEnv ex2State 0 [0, 0, 1] ex2Next0).2.1 = ex2State :=
  apply_action_fail_eq_current wEnv ex2State 0 [0, 0, 1] ex2Next0 (by decide)

/-! ### C3: process outcome when the frontier empties without a goal -/

/-- Counterexample to C3: with well-formed arguments (argc = 4, method =
astar, parse succeeded) and search returning no solution node, main does
not exit non-zero: it prints "No solution found." and falls through to
`return 0` (it does write nothing to the solution file). -/
theorem planner_no_solution_exit_cex :
    ¬((planner_main 4 astar true none).1 ≠ 0 ∧ (planner_main 4 astar true none).2 = false) := by
  decide

/-- C3 (amended): when the frontier empties without reaching a goal (search
returns NULL), the planner writes nothing to the solution file but exits
with code 0, not a non-zero code. -/
theorem planner_no_solution_exit (method : Int) (h : method = best ∨ method = astar) :
    planner_main 4 method true none = (0, false) := by
  rcases h with h | h <;> simp [planner_main, h, best, astar]

/-- Witness for the amended C3 with the astar method. -/
theorem planner_no_solution_exit_witness :
    planner_main 4 astar true none = (0, false) :=
  planner_no_solution_exit astar (Or.inr rfl)

/-! ### C4: what initialize_search sets up -/

/-- Counterexample to C4: after initialize_search returns, the initial
state's fingerprint is not in the closed set — initialize_search never calls
make_state_key or add_to_state_set, so the global state_set is still the
empty table it was at program start. -/
theorem initialize_search_no_root_fingerprint :
    make_state_key wEnv wState ∉ (initialize_search wEnv wState astar).state_set := by
  simp [initialize_search]

/-- C4 (amended): initialize_search builds the root with state = initial,
g = 0, depth = 0, computes its h with the freshly precomputed distance
table, sets f = h for best and f = g + h for astar, and makes the frontier
hold exactly the root; the closed set stays empty — the root's fingerprint
is not inserted (fingerprints enter the closed set only when children are
generated, in check_with_parents). -/
theorem initialize_search_spec (env : Env) (initState : State) (method : Int) :
    (initialize_search env initState method).root.currState = initState ∧
    (initialize_search env initState method).root.g = 0 ∧
    (initialize_search env initState method).root.depth = 0 ∧
    (initialize_search env initState method).root.h =
      heuristic env (precompute_shortest_paths initState env.num_waypoints) initState ∧
    (initialize_search env initState method).root.f =
      (if method = best then (initialize_search env initState method).root.h
       else (initialize_search env initState method).root.g +
         (initialize_search env initState method).root.h) ∧
    (initialize_search env initState method).frontier =
      [((initialize_search env initState method).root.f,
        (initialize_search env initState method).root)] ∧
    (initialize_search env initState method).state_set = [] := by
  refine ⟨rfl, rfl, rfl, rfl, ?_, ?_, rfl⟩
  · simp [initialize_search]
  · simp [initialize_search, insert_node, bubble_up]

/-! ### C5: the closed-set fingerprint -/

/-- A state with rover r's soil-analysis and rock-analysis bitmaps replaced
(make_state_key only looks at whether each bitmap is nonzero). -/
def set_rover_analyses (s : State) (r : Nat) (a b : Nat) : State :=
  let rv := { rov s r with has_soil_analysis := a, has_rock_analysis := b }
  { s with rovers := s.rovers.set r rv }

/-- Counterexample to C5: two states that differ in which waypoint rover 0
holds a soil analysis for (waypoint 1 vs waypoint 2) receive the same
fingerprint, and likewise two states that differ in which waypoint rover 0
holds a rock analysis for, because make_state_key collapses each rover's
per-waypoint analysis bitmaps to the single bits
`has_soil_analysis != 0` and `has_rock_analysis != 0`. -/
theorem make_state_key_collapses_analysis :
    (make_state_key wEnv (set_rover_analyses wState 0 2 0) =
       make_state_key wEnv (set_rover_analyses wState 0 4 0) ∧
     (rov (set_rover_analyses wState 0 2 0) 0).has_soil_analysis ≠
       (rov (set_rover_analyses wState 0 4 0) 0).has_soil_analysis) ∧
    (make_state_key wEnv (set_rover_analyses wState 0 1 2) =
       make_state_key wEnv (set_rover_analyses wState 0 1 4) ∧
     (rov (set_rover_analyses wState 0 1 2) 0).has_rock_analysis ≠
       (rov (set_rover_analyses wState 0 1 4) 0).has_rock_analysis) := by
  refine ⟨⟨?_, ?_⟩, ?_, ?_⟩
  · decide
  · decide
  · decide
  · decide

/-- C5 (amended): the fingerprint packs rover positions, energies, the
one-bit-per-rover any-soil-analysis and any-rock-analysis bitmaps, the
per-rover have_image bitmaps, the per-waypoint sample and communicated
bitmaps, camera calibration, store fullness, the per-objective any-mode
communicated-image bitmap, and the recharges counter; consequently
replacing a rover's soil-analysis bitmap and rock-analysis bitmap by any
bitmaps with the same emptiness leaves the fingerprint unchanged — so two
states that differ only in which waypoints the rover holds soil or rock
analyses for receive the same fingerprint. -/
theorem make_state_key_analyses_nonzero_only (env : Env) (s : State) (r a a2 b b2 : Nat)
    (hsoil : a ≠ 0 ↔ a2 ≠ 0) (hrock : b ≠ 0 ↔ b2 ≠ 0) :
    make_state_key env (set_rover_analyses s r a b) =
      make_state_key env (set_rover_analyses s r a2 b2) := by
  have hrovA : ∀ x, rov (set_rover_analyses s r a b) x =
      if r = x ∧ x < s.rovers.length then
        { rov s r with has_soil_analysis := a, has_rock_analysis := b }
      else rov s x := fun x => getD_set _ _ _ _ _
  have hrovB : ∀ x, rov (set_rover_analyses s r a2 b2) x =
      if r = x ∧ x < s.rovers.length then
        { rov s r with has_soil_analysis := a2, has_rock_analysis := b2 }
      else rov s x := fun x => getD_set _ _ _ _ _
  simp only [make_state_key, StateKey.mk.injEq]
  refine ⟨?_, ?_, ?_, ?_, ?_, rfl, rfl, rfl, rfl, rfl, rfl, rfl, rfl⟩
  · refine List.map_congr_left fun x _ => ?_
    rw [hrovA, hrovB]
    by_cases hx : r = x ∧ x < s.rovers.length
    · rw [if_pos hx, if_pos hx]
    · rw [if_neg hx, if_neg hx]
  · refine List.map_congr_left fun x _ => ?_
    rw [hrovA, hrovB]
    by_cases hx : r = x ∧ x < s.rovers.length
    · rw [if_pos hx, if_pos hx]
    · rw [if_neg hx, if_neg hx]
  · refine foldl_ext _ _ fun acc x _ => ?_
    rw [hrovA, hrovB]
    by_cases hx : r = x ∧ x < s.rovers.length
    · rw [if_pos hx, if_pos hx]
      exact if_congr hsoil rfl rfl
    · rw [if_neg hx, if_neg hx]
  · refine foldl_ext _ _ fun acc x _ => ?_
    rw [hrovA, hrovB]
    by_cases hx : r = x ∧ x < s.rovers.length
    · rw [if_pos hx, if_pos hx]
      exact if_congr hrock rfl rfl
    · rw [if_neg hx, if_neg hx]
  · refine List.map_congr_left fun x _ => ?_
    by_cases hx : x < env.num_rovers
    · rw [if_pos hx, if_pos hx]
      unfold have_image_bm
      refine foldl_ext _ _ fun acc o _ => ?_
      refine foldl_ext _ _ fun acc2 m _ => ?_
      rw [hrovA, hrovB]
      by_cases hy : r = x ∧ x < s.rovers.length
      · rw [if_pos hy, if_pos hy]
        rfl
      · rw [if_neg hy, if_neg hy]
    · rw [if_neg hx, if_neg hx]

/-- Witness for the amended C5: replacing rover 0's soil bitmap 2 by 4 and
its rock bitmap 1 by 8 (all nonempty) keeps the fingerprint. -/
theorem make_state_key_analyses_nonzero_only_witness :
    make_state_key wEnv (set_rover_analyses wState 0 2 1) =
      make_state_key wEnv (set_rover_analyses wState 0 4 8) :=
  make_state_key_analyses_nonzero_only wEnv wState 0 2 4 1 8 (by decide) (by decide)

/-! ### C9: energy non-negativity is preserved by apply_action -/

/-- C9: if every rover's energy is non-negative and apply_action succeeds,
every rover's energy in the produced state is still non-negative — every
energy-consuming action checks `energy >= cost` among its preconditions
before deducting, and recharge only adds energy. -/
theorem apply_action_preserves_energy_nonneg (env : Env) (s : State) (action_type : Nat)
    (params : List Nat) (next0 : State)
    (h0 : ∀ x, 0 ≤ (rov s x).energy)
    (hs : (apply_action env s action_type params next0).1 = 1) :
    ∀ x, 0 ≤ (rov (apply_action env s action_type params next0).2.1 x).energy := by
  rcases action_type with _ | _ | _ | _ | _ | _ | _ | _ | _ | n <;>
    · simp only [apply_action] at hs ⊢
      split_ifs at hs ⊢
      all_goals first
        | exact absurd hs zero_ne_one
        | (intro x
           have hh := h0 (params.getD 0 0)
           first
             | exact h0 x
             | (simp only [rov] at *
                rw [getD_set]
                split_ifs with hx
                · dsimp only
                  omega
                · exact h0 x))

/-- Witness for C9 at a concrete successful recharge, read off for rover 0. -/
theorem apply_action_preserves_energy_nonneg_witness :
    0 ≤ (rov (apply_action wEnv wState 1 [0, 0] wState).2.1 0).energy :=
  apply_action_preserves_energy_nonneg wEnv wState 1 [0, 0] wState
    (by
      intro x
      rcases x with _ | x
      · decide
      · exact le_refl 0)
    (by decide) 0

/-! ### C10: sign of the heuristic -/

/-- C10: the heuristic returns exactly 0 on every goal state and a
non-negative value on every non-goal state (for any distance table). -/
theorem heuristic_sign (env : Env) (dist : Nat → Nat → Nat → Int) (s : State) :
    (is_solution env s = true → heuristic env dist s = 0) ∧
    (is_solution env s = false → 0 ≤ heuristic env dist s) := by
  constructor
  · intro h
    simp [heuristic, h]
  · intro _
    simp only [heuristic]
    split_ifs <;> simp only [INT_MAX] at * <;> omega

/-- The empty goal record: no goals at all. -/
def noGoal : Goal :=
  { communicated_soil_data := fun _ => false,
    communicated_rock_data := fun _ => false,
    communicated_image_data := fun _ _ => false }

/-- The wEnv problem with no goals at all: every state is a goal state. -/
def wEnvNoGoal : Env :=
  { wEnv with goal := noGoal }

/-- Witness for C10: a concrete goal state gets h = 0 and a concrete
non-goal state gets h ≥ 0. -/
theorem heuristic_sign_witness :
    heuristic wEnvNoGoal (precompute_shortest_paths wState 2) wState = 0 ∧
    0 ≤ heuristic wEnv (precompute_shortest_paths wState 2) wState :=
  ⟨(heuristic_sign wEnvNoGoal (precompute_shortest_paths wState 2) wState).1 (by decide),
   (heuristic_sign wEnv (precompute_shortest_paths wState 2) wState).2 (by decide)⟩

/-! ### C1: the heuristic is not admissible -/

/-- A soil-equipped rover at waypoint 0 with full energy (used twice in the
C1 failing input). -/
def ex1Rover : Rover :=
  { position := 0, energy := 20, available := true, has_soil_analysis := 0,
    has_rock_analysis := 0, equipped_soil := true, equipped_rock := false,
    equipped_imaging := false, can_traverse := fun _ _ => false, have_image := [] }

/-- The C1 failing input: two identical soil-equipped rovers at waypoint 0
(which holds a soil sample and sees the lander at waypoint 1), one soil goal
at waypoint 0, each rover with its own empty store. It is an initial state
the parser can produce. -/
def ex1State : State :=
  { rovers := [ex1Rover, ex1Rover],
    waypoints :=
      [{ has_soil_sample := true, has_rock_sample := false, communicated_soil := false,
         communicated_rock := false, in_sun := false, visible_waypoints := 2 },
       { has_soil_sample := false, has_rock_sample := false, communicated_soil := false,
         communicated_rock := false, in_sun := false, visible_waypoints := 0 }],
    cameras := [],
    stores := [{ is_full := false, rover_id := 0 }, { is_full := false, rover_id := 1 }],
    objectives := [], lander := { lander_position := 1, channel_free := true },
    recharges := 0 }

/-- The problem data of the C1 failing input. -/
def ex1Env : Env :=
  { goal := { communicated_soil_data := fun w => w == 0,
              communicated_rock_data := fun _ => false,
              communicated_image_data := fun _ _ => false },
    num_rovers := 2, num_waypoints := 2, num_cameras := 0, num_stores := 2,
    num_objectives := 0, num_modes := 3 }

/-- The distance table the planner precomputes for this initial state. -/
def ex1Dist : Nat → Nat → Nat → Int :=
  precompute_shortest_paths ex1State ex1Env.num_waypoints

/-- The state after rover 0 samples the soil at waypoint 0 (cost 3). -/
def ex1S1 : State := (apply_action ex1Env ex1State 2 [0, 0, 0] ex1State).2.1

/-- The state after rover 0 then communicates the soil data (cost 4). -/
def ex1S2 : State := (apply_action ex1Env ex1S1 7 [0, 0, 0, 1] ex1State).2.1

/-- C1 fails on the code: on the (reachable, parser-producible) initial
state ex1State the heuristic returns 14, yet the two-action plan
sample_soil(rover0, store0, waypoint0); communicate_soil_data(rover0,
waypoint0, waypoint0, waypoint1) reaches a goal state with total energy
3 + 4 = 7 < 14. The greedy assignment charges BOTH rovers for the single
remaining goal (one candidate task per rover, cost 7 each), so h is not a
lower bound on the remaining cost, contradicting the admissibility claimed
by the heuristic's own documentation. -/
theorem heuristic_not_admissible :
    is_solution ex1Env ex1State = false ∧
    heuristic ex1Env ex1Dist ex1State = 14 ∧
    (apply_action ex1Env ex1State 2 [0, 0, 0] ex1State).1 = 1 ∧
    (apply_action ex1Env ex1State 2 [0, 0, 0] ex1State).2.2 = 3 ∧
    (apply_action ex1Env ex1S1 7 [0, 0, 0, 1] ex1State).1 = 1 ∧
    (apply_action ex1Env ex1S1 7 [0, 0, 0, 1] ex1State).2.2 = 4 ∧
    is_solution ex1Env ex1S2 = true ∧
    ¬(heuristic ex1Env ex1Dist ex1State ≤ 3 + 4) := by
  refine ⟨by decide, by decide, by decide, by decide, by decide, by decide, by decide, by decide⟩

/-! ### C8: correctness of the Floyd-Warshall shortest-path table

The proof follows the classical structure: first the in-place triple loop is
shown to equal a pointwise relaxation per `k`-pass (the `k`-th row and
column never change during pass `k` because the diagonal is 0), then the
standard invariant — after the passes for k < m, `d i j` is the least cost
of a path whose intermediate vertices are all below m — is carried through
the fold. -/

/-- The value of cell (i, j) after the relaxation step of pass `k`. -/
def fwPoint (d : Nat → Nat → Int) (k i j : Nat) : Int :=
  if d i k ≠ INT_MAX ∧ d k j ≠ INT_MAX ∧ d i k + d k j < d i j then d i k + d k j
  else d i j

theorem fw_relax_apply (k : Nat) (d : Nat → Nat → Int) (i j a b : Nat) :
    fw_relax k d i j a b = if a = i ∧ b = j then fwPoint d k i j else d a b := by
  unfold fw_relax fwPoint fw_set
  split_ifs with h1 h2 h3 <;> simp_all

theorem fwPoint_col (d : Nat → Nat → Int) (k : Nat) (hkk : d k k = 0) (a : Nat) :
    fwPoint d k a k = d a k := by
  unfold fwPoint
  rw [hkk]
  simp

theorem fwPoint_row (d : Nat → Nat → Int) (k : Nat) (hkk : d k k = 0) (b : Nat) :
    fwPoint d k k b = d k b := by
  unfold fwPoint
  rw [hkk]
  simp

theorem fwPoint_le (d : Nat → Nat → Int) (k i j : Nat) : fwPoint d k i j ≤ d i j := by
  unfold fwPoint
  split_ifs with h
  · exact le_of_lt h.2.2
  · exact le_refl _

/-- The `j` loop of pass `k` for row `i`, relative to the row-start matrix
`d0`: processed cells of row `i` hold the relaxed value, everything else is
untouched. -/
theorem fw_row_fold (k i : Nat) (d0 : Nat → Nat → Int) (hd0 : d0 k k = 0) :
    ∀ (js seen : List Nat), js.Nodup → (∀ j ∈ js, j ∉ seen) →
    ∀ (d : Nat → Nat → Int),
      (∀ a b, d a b = if a = i ∧ b ∈ seen then fwPoint d0 k a b else d0 a b) →
      ∀ a b, (js.foldl (fun dd j => fw_relax k dd i j) d) a b =
        if a = i ∧ (b ∈ seen ∨ b ∈ js) then fwPoint d0 k a b else d0 a b := by
  intro js
  induction js with
  | nil =>
    intro seen _ _ d hd a b
    simp only [List.foldl_nil, List.not_mem_nil, or_false]
    exact hd a b
  | cons j js ih =>
    intro seen hnd hdisj d hd a b
    have hjs : js.Nodup := (List.nodup_cons.mp hnd).2
    have hjnotin : j ∉ js := (List.nodup_cons.mp hnd).1
    have hjseen : j ∉ seen := hdisj j (by simp)
    have hstep : ∀ a b, fw_relax k d i j a b =
        if a = i ∧ b ∈ seen ++ [j] then fwPoint d0 k a b else d0 a b := by
      intro a b
      rw [fw_relax_apply]
      by_cases hab : a = i ∧ b = j
      · obtain ⟨ha, hb⟩ := hab
        subst ha; subst hb
        have e1 : d a k = d0 a k := by
          rw [hd]
          by_cases hk : k ∈ seen
          · rw [if_pos ⟨rfl, hk⟩, fwPoint_col d0 k hd0]
          · rw [if_neg (by tauto)]
        have e2 : d k b = d0 k b := by
          rw [hd]
          rw [if_neg (by tauto)]
        have e3 : d a b = d0 a b := by
          rw [hd]
          rw [if_neg (by tauto)]
        rw [if_pos ⟨rfl, rfl⟩, if_pos ⟨rfl, by simp⟩]
        unfold fwPoint
        rw [e1, e2, e3]
      · rw [if_neg hab, hd]
        by_cases h1 : a = i ∧ b ∈ seen
        · rw [if_pos h1, if_pos ⟨h1.1, by simp [h1.2]⟩]
        · rw [if_neg h1, if_neg ?_]
          intro hc
          rcases List.mem_append.mp hc.2 with hb | hb
          · exact h1 ⟨hc.1, hb⟩
          · exact hab ⟨hc.1, by simpa using hb⟩
    have hdisj2 : ∀ x ∈ js, x ∉ seen ++ [j] := by
      intro x hx
      simp only [List.mem_append, List.mem_singleton]
      rintro (hs | rfl)
      · exact hdisj x (by simp [hx]) hs
      · exact hjnotin hx
    simp only [List.foldl_cons]
    rw [ih (seen ++ [j]) hjs hdisj2 (fw_relax k d i j) hstep a b]
    by_cases ha : a = i
    · subst ha
      by_cases hb : b ∈ seen ∨ b ∈ j :: js
      · have hmem : b ∈ seen ++ [j] ∨ b ∈ js := by
          rcases hb with hb | hb
          · exact Or.inl (by simp [hb])
          · rcases List.mem_cons.mp hb with rfl | hb
            · exact Or.inl (by simp)
            · exact Or.inr hb
        rw [if_pos ⟨rfl, hmem⟩, if_pos ⟨rfl, hb⟩]
      · rw [if_neg ?_, if_neg (by tauto)]
        push_neg at hb
        rintro ⟨-, hc | hc⟩
        · rcases List.mem_append.mp hc with hc | hc
          · exact hb.1 hc
          · exact hb.2 (by simpa using Or.inl (List.mem_singleton.mp hc))
        · exact hb.2 (by simp [hc])
    · rw [if_neg (by tauto), if_neg (by tauto)]

/-- The `i` loop of pass `k`, relative to the pass-start matrix `d0`:
processed rows hold the relaxed values on the first `n` columns. -/
theorem fw_pass_fold (n k : Nat) (d0 : Nat → Nat → Int) (hd0 : d0 k k = 0) :
    ∀ (is_ seen : List Nat), is_.Nodup → (∀ i ∈ is_, i ∉ seen) →
    ∀ (d : Nat → Nat → Int),
      (∀ a b, d a b = if a ∈ seen ∧ b < n then fwPoint d0 k a b else d0 a b) →
      ∀ a b, (is_.foldl (fun dd i => fw_row n k i dd) d) a b =
        if (a ∈ seen ∨ a ∈ is_) ∧ b < n then fwPoint d0 k a b else d0 a b := by
  intro is_
  induction is_ with
  | nil =>
    intro seen _ _ d hd a b
    simp only [List.foldl_nil, List.not_mem_nil, or_false]
    exact hd a b
  | cons i is_ ih =>
    intro seen hnd hdisj d hd a b
    have his : is_.Nodup := (List.nodup_cons.mp hnd).2
    have hinotin : i ∉ is_ := (List.nodup_cons.mp hnd).1
    have hiseen : i ∉ seen := hdisj i (by simp)
    have hdkk : d k k = 0 := by
      rw [hd]
      by_cases hk : k ∈ seen ∧ k < n
      · rw [if_pos hk, fwPoint_col d0 k hd0]
        exact hd0
      · rw [if_neg hk]
        exact hd0
    have hrow := fw_row_fold k i d hdkk (List.range n) [] (List.nodup_range n)
      (by simp) d (by intro a b; simp) 
    have hstep : ∀ a b, fw_row n k i d a b =
        if a ∈ seen ++ [i] ∧ b < n then fwPoint d0 k a b else d0 a b := by
      intro a b
      unfold fw_row
      rw [hrow a b]
      simp only [List.not_mem_nil, false_or, List.mem_range]
      by_cases ha : a = i
      · subst ha
        by_cases hb : b < n
        · rw [if_pos ⟨rfl, hb⟩, if_pos ⟨by simp, hb⟩]
          have e1 : d a k = d0 a k := by
            rw [hd]; rw [if_neg (by tauto)]
          have e2 : ∀ c, d k c = d0 k c := by
            intro c
            rw [hd]
            by_cases hk : k ∈ seen ∧ c < n
            · rw [if_pos hk, fwPoint_row d0 k hd0]
            · rw [if_neg hk]
          have e3 : d a b = d0 a b := by
            rw [hd]; rw [if_neg (by tauto)]
          unfold fwPoint
          rw [e1, e2, e3]
        · rw [if_neg (by tauto), if_neg (by tauto), hd, if_neg (by tauto)]
      · rw [if_neg (by tauto), hd]
        by_cases hsb : a ∈ seen ∧ b < n
        · rw [if_pos hsb, if_pos ⟨by simp [hsb.1], hsb.2⟩]
        · rw [if_neg hsb, if_neg ?_]
          rintro ⟨hc, hb⟩
          rcases List.mem_append.mp hc with hc | hc
          · exact hsb ⟨hc, hb⟩
          · exact ha (by simpa using hc)
    have hdisj2 : ∀ x ∈ is_, x ∉ seen ++ [i] := by
      intro x hx
      simp only [List.mem_append, List.mem_singleton]
      rintro (hs | rfl)
      · exact hdisj x (by simp [hx]) hs
      · exact hinotin hx
    simp only [List.foldl_cons]
    rw [ih (seen ++ [i]) his hdisj2 (fw_row n k i d) hstep a b]
    by_cases hb : b < n
    · by_cases ha : a ∈ seen ∨ a ∈ i :: is_
      · have hmem : a ∈ seen ++ [i] ∨ a ∈ is_ := by
          rcases ha with ha | ha
          · exact Or.inl (by simp [ha])
          · rcases List.mem_cons.mp ha with rfl | ha
            · exact Or.inl (by simp)
            · exact Or.inr ha
        rw [if_pos ⟨hmem, hb⟩, if_pos ⟨ha, hb⟩]
      · rw [if_neg ?_, if_neg (by tauto)]
        push_neg at ha
        rintro ⟨hc | hc, -⟩
        · rcases List.mem_append.mp hc with hc | hc
          · exact ha.1 hc
          · exact ha.2 (by simp [List.mem_singleton.mp hc])
        · exact ha.2 (by simp [hc])
    · rw [if_neg (by tauto), if_neg (by tauto)]

/-- Pass `k` of Floyd-Warshall, pointwise: inside the n×n window every cell
is relaxed through `k` once, outside nothing changes. -/
theorem fw_pass_apply (n k : Nat) (d : Nat → Nat → Int) (hkk : d k k = 0) (a b : Nat) :
    fw_pass n k d a b = if a < n ∧ b < n then fwPoint d k a b else d a b := by
  unfold fw_pass
  rw [fw_pass_fold n k d hkk (List.range n) [] (List.nodup_range n) (by simp) d
    (by intro a b; simp) a b]
  simp [List.mem_range]

/-- A path in rover r's travel graph: vertex sequence `p` from `u` to `v`,
consecutive vertices joined by fw_edge, and every intermediate vertex
(strictly between the endpoints of the sequence) below `K`. -/
def IsPathUpto (s : State) (r K u v : Nat) (p : List Nat) : Prop :=
  p.head? = some u ∧ p.getLast? = some v ∧
  List.Chain' (fun a b => fw_edge s r a b = true) p ∧
  ∀ x ∈ p.tail.dropLast, x < K

/-- The travel cost of a path: 8 energy per edge. -/
def pcost (p : List Nat) : Int := 8 * ((p.length - 1 : Nat) : Int)

theorem pcost_nonneg (p : List Nat) : 0 ≤ pcost p := by
  unfold pcost
  positivity

theorem pcost_lt_intmax (p : List Nat) (n : Nat) (hn : n ≤ 30) (hlen : p.length ≤ n) :
    pcost p < INT_MAX := by
  unfold pcost INT_MAX
  omega

/-! Small list facts used by the path lemmas. -/

theorem head?_append_left {α : Type} (l1 l2 : List α) (h : l1 ≠ []) :
    (l1 ++ l2).head? = l1.head? := by
  cases l1 <;> simp_all

theorem tail_append_left {α : Type} (l1 l2 : List α) (h : l1 ≠ []) :
    (l1 ++ l2).tail = l1.tail ++ l2 := by
  cases l1 <;> simp_all

theorem head?_append_cons {α : Type} (l : List α) (x : α) (t t2 : List α) :
    (l ++ x :: t).head? = (l ++ x :: t2).head? := by
  cases l <;> simp

theorem mem_dropLast_or_last {α : Type} (l : List α) (x : α) (hx : x ∈ l) :
    x ∈ l.dropLast ∨ l.getLast? = some x := by
  have hne : l ≠ [] := List.ne_nil_of_mem hx
  have hdec := List.dropLast_append_getLast hne
  rw [← hdec] at hx
  rcases List.mem_append.mp hx with h | h
  · exact Or.inl h
  · right
    rw [List.getLast?_eq_getLast l hne]
    have hx2 : x = l.getLast hne := by simpa using h
    rw [hx2]

theorem mem_of_mem_interior {α : Type} (l : List α) (x : α) (hx : x ∈ l.tail.dropLast) :
    x ∈ l := by
  exact (List.tail_sublist l).mem ((List.dropLast_sublist l.tail).mem hx)

theorem not_nodup_decomp {α : Type} :
    ∀ (l : List α), ¬l.Nodup → ∃ x s1 s2 s3, l = s1 ++ x :: s2 ++ x :: s3 := by
  intro l
  induction l with
  | nil => intro h; exact absurd List.nodup_nil h
  | cons a l ih =>
    intro h
    rw [List.nodup_cons] at h
    by_cases ha : a ∈ l
    · obtain ⟨s, t, hst⟩ := List.append_of_mem ha
      exact ⟨a, [], s, t, by simp [hst]⟩
    · have hnl : ¬l.Nodup := by tauto
      obtain ⟨x, s1, s2, s3, hl⟩ := ih hnl
      exact ⟨x, a :: s1, s2, s3, by simp [hl]⟩

theorem nodup_length_le (l : List Nat) (n : Nat) (hnd : l.Nodup)
    (hb : ∀ x ∈ l, x < n) : l.length ≤ n := by
  have h1 : l.toFinset ⊆ Finset.range n := by
    intro x hx
    exact Finset.mem_range.mpr (hb x (List.mem_toFinset.mp hx))
  have h2 := Finset.card_le_card h1
  rw [Finset.card_range] at h2
  rw [← List.toFinset_card_of_nodup hnd]
  exact h2

/-! Path lemmas. -/

theorem path_mono (s : State) (r K1 K2 u v : Nat) (h : K1 ≤ K2) (p : List Nat)
    (hp : IsPathUpto s r K1 u v p) : IsPathUpto s r K2 u v p :=
  ⟨hp.1, hp.2.1, hp.2.2.1, fun x hx => lt_of_lt_of_le (hp.2.2.2 x hx) h⟩

/-- A path at window 0 has no interior vertex: it is a single vertex or a
single edge. -/
theorem path_upto_zero (s : State) (r u v : Nat) (p : List Nat)
    (hp : IsPathUpto s r 0 u v p) : (u = v ∧ p = [u]) ∨ p = [u, v] := by
  obtain ⟨hh, hl, _, hi⟩ := hp
  rcases p with _ | ⟨a, rest⟩
  · simp at hh
  have ha : a = u := by simpa using hh
  subst ha
  rcases rest with _ | ⟨b, rest2⟩
  · left
    refine ⟨?_, rfl⟩
    simpa using hl
  rcases rest2 with _ | ⟨c, rest3⟩
  · right
    have : b = v := by simpa using hl
    rw [this]
  · exfalso
    have hb : b ∈ (a :: b :: c :: rest3).tail.dropLast := by simp
    exact absurd (hi b hb) (by omega)

/-- Concatenating a path from u to K (window K) with a path from K to v
(window K) gives a path from u to v whose window may now include K, with
additive cost. -/
theorem path_glue (s : State) (r K u v : Nat) (p1 p2 : List Nat)
    (h1 : IsPathUpto s r K u K p1) (h2 : IsPathUpto s r K K v p2) :
    IsPathUpto s r (K + 1) u v (p1 ++ p2.tail) ∧
      pcost (p1 ++ p2.tail) = pcost p1 + pcost p2 := by
  obtain ⟨hh1, hl1, hc1, hi1⟩ := h1
  obtain ⟨hh2, hl2, hc2, hi2⟩ := h2
  have hp1ne : p1 ≠ [] := by cases p1 <;> simp_all
  rcases p2 with _ | ⟨a, t⟩
  · simp at hh2
  have ha : K = a := by simpa using hh2.symm
  subst ha
  rcases t with _ | ⟨b, t2⟩
  · -- p2 = [K], so v = K and the glued path is p1 itself
    have hv : K = v := by simpa using hl2
    constructor
    · refine ⟨by simpa using hh1, ?_, by simpa using hc1, ?_⟩
      · rw [List.tail_cons, List.append_nil, hl1, hv]
      · intro x hx
        simp only [List.tail_cons, List.dropLast_nil, List.append_nil] at hx
        exact lt_of_lt_of_le (hi1 x hx) (Nat.le_succ K)
    · unfold pcost
      simp
  · -- p2 = K :: b :: t2, the glued path is p1 ++ b :: t2
    have hc2' := List.chain'_cons'.mp hc2
    constructor
    · refine ⟨?_, ?_, ?_, ?_⟩
      · rw [head?_append_left p1 _ hp1ne]
        exact hh1
      · rw [List.getLast?_append_of_ne_nil p1 (by simp : (K :: b :: t2).tail ≠ [])]
        simpa using hl2
      · refine List.chain'_append.mpr ⟨hc1, hc2'.2, ?_⟩
        intro x hx y hy
        have hx2 : K = x := by rw [hl1] at hx; simpa using hx
        subst hx2
        exact hc2'.1 y hy
      · intro x hx
        rw [tail_append_left p1 _ hp1ne,
          List.dropLast_append_of_ne_nil p1.tail (by simp : (K :: b :: t2).tail ≠ [])] at hx
        rcases List.mem_append.mp hx with hx | hx
        · rcases p1 with _ | ⟨c, tl⟩
          · simp at hx
          simp only [List.tail_cons] at hx
          rcases mem_dropLast_or_last tl x hx with hx2 | hx2
          · exact lt_of_lt_of_le (hi1 x (by simpa using hx2)) (Nat.le_succ K)
          · have htlne : tl ≠ [] := by
              intro hemp
              rw [hemp] at hx
              simp at hx
            have : (c :: tl).getLast? = tl.getLast? := by
              rcases tl with _ | ⟨d, tl2⟩
              · exact absurd rfl htlne
              · simp [List.getLast?_cons_cons]
            rw [this, hx2] at hl1
            have : x = K := by simpa using hl1
            omega
        · have : x < K := hi2 x (by simpa using hx)
          omega
    · unfold pcost
      rw [List.length_append]
      simp only [List.tail_cons, List.length_cons]
      have : 1 ≤ p1.length := by
        rcases p1 with _ | _
        · exact absurd rfl hp1ne
        · simp
      omega

/-- Splitting a duplicate-free path from u to v whose interior contains K at
its unique occurrence of K: the two halves are paths at window K with
additive cost, made of vertices of the original path. -/
theorem path_split (s : State) (r K u v : Nat) (p : List Nat)
    (hp : IsPathUpto s r (K + 1) u v p) (hnd : p.Nodup) (hmem : K ∈ p.tail.dropLast) :
    ∃ p1 p2, IsPathUpto s r K u K p1 ∧ IsPathUpto s r K K v p2 ∧
      p1.Nodup ∧ p2.Nodup ∧ (∀ x ∈ p1, x ∈ p) ∧ (∀ x ∈ p2, x ∈ p) ∧
      pcost p1 + pcost p2 = pcost p := by
  obtain ⟨hh, hl, hc, hi⟩ := hp
  rcases p with _ | ⟨a, rest⟩
  · simp at hh
  have ha : u = a := by simpa using hh.symm
  subst ha
  have hKrest : K ∈ rest := by
    have hsub : rest.dropLast.Sublist rest := List.dropLast_sublist rest
    exact hsub.mem (by simpa using hmem)
  obtain ⟨s1, s2, hrest⟩ := List.append_of_mem hKrest
  subst hrest
  have hnd2 : (s1 ++ K :: s2).Nodup ∧ u ∉ s1 ++ K :: s2 := by
    rw [List.nodup_cons] at hnd
    exact ⟨hnd.2, hnd.1⟩
  have hKnot : K ∉ s1 ++ s2 := by
    have h3 := (List.nodup_cons.mp (List.nodup_middle.mp hnd2.1)).1
    exact h3
  have hKs1 : K ∉ s1 := fun hc2 => hKnot (List.mem_append.mpr (Or.inl hc2))
  have hKs2 : K ∉ s2 := fun hc2 => hKnot (List.mem_append.mpr (Or.inr hc2))
  have hs2ne : s2 ≠ [] := by
    intro hemp
    subst hemp
    have : K ∈ s1 := by simpa [List.dropLast_concat] using hmem
    exact hKs1 this
  -- p = (u :: s1) ++ (K :: s2); halves p1 = (u :: s1) ++ [K], p2 = K :: s2
  have hPdec : u :: (s1 ++ K :: s2) = (u :: s1) ++ (K :: s2) := by simp
  have hcparts := List.chain'_append.mp (by rw [← hPdec]; exact hc)
  have hinterior : (u :: (s1 ++ K :: s2)).tail.dropLast = s1 ++ K :: s2.dropLast := by
    rw [List.tail_cons, show (K :: s2 : List Nat) = [K] ++ s2 from rfl,
      ← List.append_assoc, List.dropLast_append_of_ne_nil (s1 ++ [K]) hs2ne]
    simp
  refine ⟨(u :: s1) ++ [K], K :: s2, ⟨?_, ?_, ?_, ?_⟩, ⟨rfl, ?_, hcparts.2.1, ?_⟩,
    ?_, ?_, ?_, ?_, ?_⟩
  · rw [head?_append_left _ _ (by simp)]
    rfl
  · rw [List.getLast?_append_of_ne_nil (u :: s1) (by simp : ([K] : List Nat) ≠ [])]
    rfl
  · refine List.chain'_append.mpr ⟨hcparts.1, by simp, ?_⟩
    intro x hx y hy
    have hy2 : K = y := by simpa using hy
    subst hy2
    exact hcparts.2.2 x hx K (by simp)
  · intro x hx
    have hx2 : x ∈ s1 := by
      simpa [List.dropLast_concat] using hx
    have hxlt : x < K + 1 := by
      apply hi
      rw [hinterior]
      exact List.mem_append.mpr (Or.inl hx2)
    have : x ≠ K := fun hxe => hKs1 (hxe ▸ hx2)
    omega
  · rw [← List.getLast?_append_of_ne_nil (u :: s1) (by simp : K :: s2 ≠ []), ← hPdec]
    exact hl
  · intro x hx
    have hx2 : x ∈ s2.dropLast := by simpa using hx
    have hxlt : x < K + 1 := by
      apply hi
      rw [hinterior]
      exact List.mem_append.mpr (Or.inr (by simp [hx2]))
    have : x ≠ K := fun hxe => hKs2 (hxe ▸ ((List.dropLast_sublist s2).mem hx2))
    omega
  · refine List.Sublist.nodup ?_ hnd
    rw [hPdec]
    exact (List.Sublist.cons₂ K (List.nil_sublist s2)).append_left (u :: s1)
  · refine List.Sublist.nodup ?_ hnd
    rw [hPdec]
    exact List.sublist_append_right (u :: s1) (K :: s2)
  · intro x hx
    rcases List.mem_append.mp hx with hx | hx
    · rcases List.mem_cons.mp hx with rfl | hx
      · simp
      · simp [hx]
    · simp [List.mem_singleton.mp hx]
  · intro x hx
    rcases List.mem_cons.mp hx with rfl | hx
    · simp
    · simp [hx]
  · unfold pcost
    simp only [List.length_append, List.length_cons, List.length_singleton,
      List.length_nil]
    omega

/-- Every path with vertices below n can be shortened to a duplicate-free
path with the same endpoints and no greater cost (cut the segment between
two occurrences of a repeated vertex). -/
theorem path_shrink (s : State) (r n u v : Nat) :
    ∀ (N : Nat) (p : List Nat), p.length ≤ N →
      p.head? = some u → p.getLast? = some v →
      List.Chain' (fun a b => fw_edge s r a b = true) p → (∀ x ∈ p, x < n) →
      ∃ q, IsPathUpto s r n u v q ∧ q.Nodup ∧ (∀ x ∈ q, x < n) ∧
        q.length ≤ p.length := by
  intro N
  induction N with
  | zero =>
    intro p hlen hh _ _ _
    rcases p with _ | _
    · simp at hh
    · simp at hlen
  | succ N ih =>
    intro p hlen hh hl hc hb
    by_cases hnd : p.Nodup
    · exact ⟨p, ⟨hh, hl, hc, fun x hx => hb x (mem_of_mem_interior p x hx)⟩,
        hnd, hb, le_refl _⟩
    · obtain ⟨x, s1, s2, s3, hdecomp⟩ := not_nodup_decomp p hnd
      subst hdecomp
      have hd1 : s1 ++ x :: s2 ++ x :: s3 = (s1 ++ [x]) ++ (s2 ++ x :: s3) := by simp
      have hd2 : s1 ++ x :: s3 = (s1 ++ [x]) ++ s3 := by simp
      have hcparts := List.chain'_append.mp (by rw [← hd1]; exact hc)
      have hcx3 : List.Chain' (fun a b => fw_edge s r a b = true) (x :: s3) := by
        have := List.chain'_append.mp
          (show List.Chain' (fun a b => fw_edge s r a b = true) (s2 ++ (x :: s3)) from
            hcparts.2.1)
        exact this.2.1
      have hassoc : s1 ++ x :: s2 ++ x :: s3 = s1 ++ x :: (s2 ++ x :: s3) := by simp
      have hq0h : (s1 ++ x :: s3).head? = some u := by
        rw [← hh, hassoc]
        exact head?_append_cons s1 x s3 (s2 ++ x :: s3)
      have hq0l : (s1 ++ x :: s3).getLast? = some v := by
        rw [← hl]
        rw [List.getLast?_append_of_ne_nil s1 (by simp : x :: s3 ≠ []),
          show s1 ++ x :: s2 ++ x :: s3 = (s1 ++ x :: s2) ++ (x :: s3) by simp,
          List.getLast?_append_of_ne_nil (s1 ++ x :: s2) (by simp : x :: s3 ≠ [])]
      have hq0c : List.Chain' (fun a b => fw_edge s r a b = true) (s1 ++ x :: s3) := by
        rw [hd2]
        refine List.chain'_append.mpr ⟨hcparts.1, (List.chain'_cons'.mp hcx3).2, ?_⟩
        intro a ha y hy
        have ha2 : a = x := by
          rw [List.getLast?_append_of_ne_nil s1 (by simp : ([x] : List Nat) ≠ [])] at ha
          simpa using ha.symm
        subst ha2
        exact (List.chain'_cons'.mp hcx3).1 y hy
      have hq0b : ∀ y ∈ s1 ++ x :: s3, y < n := by
        intro y hy
        apply hb
        rcases List.mem_append.mp hy with hy | hy
        · simp [hy]
        · rcases List.mem_cons.mp hy with rfl | hy
          · simp
          · simp [hy]
      have hq0len : (s1 ++ x :: s3).length ≤ N := by
        have h1 : (s1 ++ x :: s2 ++ x :: s3).length ≤ N + 1 := hlen
        simp only [List.length_append, List.length_cons] at h1 ⊢
        omega
      obtain ⟨q, hq, hqnd, hqb, hqlen⟩ := ih (s1 ++ x :: s3) hq0len hq0h hq0l hq0c hq0b
      refine ⟨q, hq, hqnd, hqb, le_trans hqlen ?_⟩
      simp only [List.length_append, List.length_cons]
      omega

theorem pcost_le_of_length_le (p q : List Nat) (h : p.length ≤ q.length) :
    pcost p ≤ pcost q := by
  unfold pcost
  omega

/-- All vertices of a path at window n with in-range endpoints are in range. -/
theorem path_vertices_lt (s : State) (r n u v : Nat) (p : List Nat)
    (hp : IsPathUpto s r n u v p) (hu : u < n) (hv : v < n) : ∀ x ∈ p, x < n := by
  obtain ⟨hh, hl, _, hi⟩ := hp
  intro x hx
  rcases p with _ | ⟨a, rest⟩
  · simp at hx
  have ha : u = a := by simpa using hh.symm
  subst ha
  rcases List.mem_cons.mp hx with rfl | hx
  · exact hu
  rcases mem_dropLast_or_last rest x hx with h2 | h2
  · exact hi x (by simpa using h2)
  · have hrne : rest ≠ [] := List.ne_nil_of_mem hx
    have hgl : (u :: rest).getLast? = rest.getLast? := by
      rcases rest with _ | ⟨b, r2⟩
      · exact absurd rfl hrne
      · simp [List.getLast?_cons_cons]
    rw [hgl, h2] at hl
    have : x = v := by simpa using hl
    omega

/-- The matrix after the Floyd-Warshall passes for k < m: zero diagonal,
non-negative entries, every finite entry realised by a path with window m,
and every entry a lower bound on the cost of duplicate-free window-m paths
within the n×n range. -/
def FWInv (s : State) (r n m : Nat) (d : Nat → Nat → Int) : Prop :=
  (∀ i, d i i = 0) ∧
  (∀ i j, 0 ≤ d i j) ∧
  (∀ i j, d i j ≠ INT_MAX → ∃ p, IsPathUpto s r m i j p ∧ pcost p = d i j) ∧
  (∀ i j, i < n → j < n → ∀ p, IsPathUpto s r m i j p → p.Nodup →
    (∀ x ∈ p, x < n) → d i j ≤ pcost p)

theorem fw_inv_init (s : State) (r n : Nat) : FWInv s r n 0 (fw_init s r) := by
  refine ⟨?_, ?_, ?_, ?_⟩
  · intro i
    simp [fw_init]
  · intro i j
    unfold fw_init INT_MAX
    split_ifs <;> norm_num
  · intro i j hne
    by_cases h1 : i = j
    · subst h1
      refine ⟨[i], ⟨rfl, rfl, by simp, by simp⟩, ?_⟩
      simp [pcost, fw_init]
    · by_cases h2 : fw_edge s r i j = true
      · refine ⟨[i, j], ⟨rfl, rfl, ?_, by simp⟩, ?_⟩
        · simp [List.chain'_cons, h2]
        · simp [pcost, fw_init, h1, h2]
      · exfalso
        apply hne
        simp [fw_init, h1, h2]
  · intro i j _ _ p hp _ _
    rcases path_upto_zero s r i j p hp with ⟨hij, hp1⟩ | hp2
    · subst hij
      rw [hp1]
      simp [fw_init, pcost]
    · have hedge : fw_edge s r i j = true := by
        obtain ⟨_, _, hc, _⟩ := hp
        rw [hp2] at hc
        exact (List.chain'_cons.mp hc).1
      have hco : pcost [i, j] = 8 := by norm_num [pcost]
      rw [hp2, hco]
      unfold fw_init
      split_ifs <;> norm_num [INT_MAX]

theorem fw_inv_step (s : State) (r n m : Nat) (hm : m < n) (hn : n ≤ 30)
    (d : Nat → Nat → Int) (hinv : FWInv s r n m d) :
    FWInv s r n (m + 1) (fw_pass n m d) := by
  obtain ⟨hdiag, hnn, hsound, hcomp⟩ := hinv
  have happly : ∀ a b, fw_pass n m d a b =
      if a < n ∧ b < n then fwPoint d m a b else d a b :=
    fun a b => fw_pass_apply n m d (hdiag m) a b
  refine ⟨?_, ?_, ?_, ?_⟩
  · intro i
    rw [happly]
    split_ifs with h
    · unfold fwPoint
      split_ifs with hg
      · exfalso
        have h1 := hnn i m
        have h2 := hnn m i
        have h3 := hdiag i
        omega
      · exact hdiag i
    · exact hdiag i
  · intro i j
    rw [happly]
    split_ifs with h
    · unfold fwPoint
      split_ifs with hg
      · have h1 := hnn i m
        have h2 := hnn m j
        omega
      · exact hnn i j
    · exact hnn i j
  · intro i j hne
    rw [happly] at hne ⊢
    split_ifs at hne ⊢ with h
    · unfold fwPoint at hne ⊢
      split_ifs at hne ⊢ with hg
      · obtain ⟨p1, hp1, hc1⟩ := hsound i m hg.1
        obtain ⟨p2, hp2, hc2⟩ := hsound m j hg.2.1
        obtain ⟨hglue, hcost⟩ := path_glue s r m i j p1 p2 hp1 hp2
        exact ⟨p1 ++ p2.tail, hglue, by rw [hcost, hc1, hc2]⟩
      · obtain ⟨p, hp, hcp⟩ := hsound i j hne
        exact ⟨p, path_mono s r m (m + 1) i j (Nat.le_succ m) p hp, hcp⟩
    · obtain ⟨p, hp, hcp⟩ := hsound i j hne
      exact ⟨p, path_mono s r m (m + 1) i j (Nat.le_succ m) p hp, hcp⟩
  · intro i j hi hj p hp hnd hb
    rw [happly, if_pos ⟨hi, hj⟩]
    by_cases hmem : m ∈ p.tail.dropLast
    · obtain ⟨p1, p2, hp1, hp2, hnd1, hnd2, hm1, hm2, hcost⟩ :=
        path_split s r m i j p hp hnd hmem
      have hb1 : ∀ x ∈ p1, x < n := fun x hx => hb x (hm1 x hx)
      have hb2 : ∀ x ∈ p2, x < n := fun x hx => hb x (hm2 x hx)
      have c1 := hcomp i m hi hm p1 hp1 hnd1 hb1
      have c2 := hcomp m j hm hj p2 hp2 hnd2 hb2
      have hl1 : pcost p1 < INT_MAX :=
        pcost_lt_intmax p1 n hn (nodup_length_le p1 n hnd1 hb1)
      have hl2 : pcost p2 < INT_MAX :=
        pcost_lt_intmax p2 n hn (nodup_length_le p2 n hnd2 hb2)
      have hne1 : d i m ≠ INT_MAX := ne_of_lt (lt_of_le_of_lt c1 hl1)
      have hne2 : d m j ≠ INT_MAX := ne_of_lt (lt_of_le_of_lt c2 hl2)
      unfold fwPoint
      split_ifs with hg
      · calc d i m + d m j ≤ pcost p1 + pcost p2 := add_le_add c1 c2
          _ = pcost p := hcost
      · have hns : ¬(d i m + d m j < d i j) := fun hlt => hg ⟨hne1, hne2, hlt⟩
        calc d i j ≤ d i m + d m j := le_of_not_lt hns
          _ ≤ pcost p1 + pcost p2 := add_le_add c1 c2
          _ = pcost p := hcost
    · have hp2 : IsPathUpto s r m i j p := by
        obtain ⟨h1, h2, h3, h4⟩ := hp
        refine ⟨h1, h2, h3, ?_⟩
        intro x hx
        have hlt := h4 x hx
        have hxm : x ≠ m := fun he => hmem (he ▸ hx)
        omega
      exact le_trans (fwPoint_le d m i j) (hcomp i j hi hj p hp2 hnd hb)

/-- The matrix after the first `m` Floyd-Warshall passes. -/
def fw_steps (s : State) (n r m : Nat) : Nat → Nat → Int :=
  (List.range m).foldl (fun d k => fw_pass n k d) (fw_init s r)

theorem fw_steps_succ (s : State) (n r m : Nat) :
    fw_steps s n r (m + 1) = fw_pass n m (fw_steps s n r m) := by
  unfold fw_steps
  rw [List.range_succ, List.foldl_append]
  rfl

theorem fw_steps_inv (s : State) (r n : Nat) (hn : n ≤ 30) :
    ∀ m, m ≤ n → FWInv s r n m (fw_steps s n r m) := by
  intro m
  induction m with
  | zero => intro _; exact fw_inv_init s r n
  | succ m ih =>
    intro hm
    rw [fw_steps_succ]
    exact fw_inv_step s r n m (by omega) hn _ (ih (by omega))

/-- C8: after precompute_shortest_paths, for every rover r and waypoints
u, v < num_waypoints, dist[r][u][u] = 0; when some path from u to v exists
in the directed graph with an edge u→v iff the rover can traverse u→v and v
is visible from u (every edge costing 8), dist[r][u][v] is the minimum path
cost (it is attained and bounds every path); and dist[r][u][v] equals the
INT_MAX sentinel (100000) exactly when no such path exists. -/
theorem rover_dist_correct (s : State) (n r u v : Nat)
    (hn : n ≤ 30) (hu : u < n) (hv : v < n) :
    rover_dist s n r u u = 0 ∧
    ((∃ p, IsPathUpto s r n u v p) →
       (∃ p, IsPathUpto s r n u v p ∧ pcost p = rover_dist s n r u v) ∧
       ∀ q, IsPathUpto s r n u v q → rover_dist s n r u v ≤ pcost q) ∧
    (rover_dist s n r u v = INT_MAX ↔ ¬∃ p, IsPathUpto s r n u v p) := by
  obtain ⟨hdiag, hnn, hsound, hcomp⟩ := fw_steps_inv s r n hn n (le_refl n)
  have heq : rover_dist s n r = fw_steps s n r n := rfl
  rw [heq]
  have hshrink : ∀ q, IsPathUpto s r n u v q →
      ∃ q2, IsPathUpto s r n u v q2 ∧ q2.Nodup ∧ (∀ x ∈ q2, x < n) ∧
        q2.length ≤ q.length := by
    intro q hq
    exact path_shrink s r n u v q.length q (le_refl _) hq.1 hq.2.1 hq.2.2.1
      (path_vertices_lt s r n u v q hq hu hv)
  have hmin : ∀ q, IsPathUpto s r n u v q → fw_steps s n r n u v ≤ pcost q := by
    intro q hq
    obtain ⟨q2, hq2, hq2nd, hq2b, hq2len⟩ := hshrink q hq
    exact le_trans (hcomp u v hu hv q2 hq2 hq2nd hq2b)
      (pcost_le_of_length_le q2 q (by omega))
  have hfin : (∃ p, IsPathUpto s r n u v p) → fw_steps s n r n u v < INT_MAX := by
    rintro ⟨p0, hp0⟩
    obtain ⟨q2, hq2, hq2nd, hq2b, _⟩ := hshrink p0 hp0
    exact lt_of_le_of_lt (hcomp u v hu hv q2 hq2 hq2nd hq2b)
      (pcost_lt_intmax q2 n hn (nodup_length_le q2 n hq2nd hq2b))
  refine ⟨hdiag u, ?_, ?_, ?_⟩
  · intro hex
    have hne : fw_steps s n r n u v ≠ INT_MAX := ne_of_lt (hfin hex)
    obtain ⟨p, hp, hcp⟩ := hsound u v hne
    exact ⟨⟨p, hp, hcp⟩, hmin⟩
  · intro hINF hex
    have := hfin hex
    rw [hINF] at this
    exact lt_irrefl _ this
  · intro hnone
    by_contra hne
    obtain ⟨p, hp, _⟩ := hsound u v hne
    exact hnone ⟨p, hp⟩

/-- Witness for C8: on the concrete two-waypoint problem wState, the
distance table has a zero diagonal, and the no-path characterisation holds
for the pair (0, 1) (wRover cannot traverse backwards, so only 0 → 1 has a
path). -/
theorem rover_dist_correct_witness :
    rover_dist wState 2 0 0 0 = 0 ∧
    (rover_dist wState 2 0 0 1 = INT_MAX ↔ ¬∃ p, IsPathUpto wState 0 2 0 1 p) :=
  ⟨(rover_dist_correct wState 2 0 0 1 (by decide) (by decide) (by decide)).1,
   (rover_dist_correct wState 2 0 0 1 (by decide) (by decide) (by decide)).2.2⟩

end RoverPlanner
